import Mathlib

/-!
Verification of the BatteryPack simulation engine against its specification.

The Python sources are embedded shallowly: floating-point arithmetic is
modelled over the reals, `np.clip` as `clip`, and numpy arrays as lists or
index functions.  Each definition mirrors one function of the repository
(`battery_pack/cell.py`, `pack.py`, `thermal.py`, `thermal_network.py`,
`aging.py`, `variation.py`, `limits.py`, `simulation.py`).
-/

open Classical

noncomputable section

/-- `np.clip(x, lo, hi)` = `min(max(x, lo), hi)`. -/
def clip (x lo hi : ℝ) : ℝ := min (max x lo) hi

/-- Cell parameters, from `battery_pack/config.py` (`CellParams`). -/
structure CellParams where
  capacity_ah : ℝ
  R0_ohm : ℝ
  R1_ohm : ℝ
  C1_f : ℝ
  V_min : ℝ
  V_max : ℝ
  T_ref_k : ℝ
  R_temp_coeff_per_k : ℝ
  ocv_floor_v : ℝ
  ocv_ceiling_v : ℝ

/-- Default cell parameters, from `battery_pack/config.py`. -/
def defaultCellParams : CellParams :=
  { capacity_ah := 3
    R0_ohm := 0.0025
    R1_ohm := 0.0015
    C1_f := 2000
    V_min := 3
    V_max := 4.2
    T_ref_k := 298.15
    R_temp_coeff_per_k := 0.003
    ocv_floor_v := 3
    ocv_ceiling_v := 4.2 }

/-- `CellECM.ocv` from `battery_pack/cell.py`: smooth monotone OCV curve,
input SOC clipped to [0,1], output clipped to the configured bounds. -/
def ocv (p : CellParams) (soc : ℝ) : ℝ :=
  let s := clip soc 0 1
  let v := 3 + 1.2 * s + 0.3 * Real.exp (-20 * (1 - s))
      - 0.08 * Real.exp (-20 * s)
  clip v p.ocv_floor_v p.ocv_ceiling_v

/-- `CellECM.temperature_adjusted_resistances` from `battery_pack/cell.py`. -/
def temperatureAdjustedResistances (p : CellParams) (T_k : ℝ) : ℝ × ℝ :=
  let scale := 1 + p.R_temp_coeff_per_k * (T_k - p.T_ref_k)
  (p.R0_ohm * scale, p.R1_ohm * scale)

/-- `CellECM.step_voltage_states` from `battery_pack/cell.py`.
Returns `(V_terminal_v, next_V_rc1_v, next_soc)`. -/
def stepVoltageStates (p : CellParams) (I_a dt_s V_rc1_v T_k initial_soc : ℝ) :
    ℝ × ℝ × ℝ :=
  let R0 := (temperatureAdjustedResistances p T_k).1
  let R1 := (temperatureAdjustedResistances p T_k).2
  let tau := R1 * p.C1_f
  let next_V_rc1_v :=
    if tau > 1e-9 then
      Real.exp (-dt_s / tau) * V_rc1_v + (1 - Real.exp (-dt_s / tau)) * (R1 * I_a)
    else
      R1 * I_a
  let q_as := p.capacity_ah * 3600
  let next_soc := clip (initial_soc - (I_a * dt_s) / q_as) 0 1
  (ocv p next_soc - R0 * I_a - next_V_rc1_v, next_V_rc1_v, next_soc)

/-- Pack parameters, from `battery_pack/config.py` (`PackParams`). -/
structure PackParams where
  series_cells : ℤ
  parallel_cells : ℤ
  max_current_a : ℝ
  min_soc : ℝ
  max_soc : ℝ

/-- Default pack parameters, from `battery_pack/config.py`. -/
def defaultPackParams : PackParams :=
  { series_cells := 40
    parallel_cells := 3
    max_current_a := 120
    min_soc := 0.1
    max_soc := 0.9 }

/-- Thermal parameters, from `battery_pack/config.py` (`ThermalParams`). -/
structure ThermalParams where
  mass_kg : ℝ
  Cp_j_per_kgk : ℝ
  UA_w_per_k : ℝ
  T_ambient_k : ℝ
  T_max_k : ℝ

/-- Default thermal parameters, from `battery_pack/config.py`. -/
def defaultThermalParams : ThermalParams :=
  { mass_kg := 10
    Cp_j_per_kgk := 900
    UA_w_per_k := 6
    T_ambient_k := 298.15
    T_max_k := 328.15 }

/-- `LumpedThermal.step` from `battery_pack/thermal.py`. -/
def lumpedThermalStep (tp : ThermalParams) (T_k heat_w dt_s : ℝ) : ℝ :=
  T_k + dt_s * ((heat_w - tp.UA_w_per_k * (T_k - tp.T_ambient_k))
    / max 1e-9 (tp.mass_kg * tp.Cp_j_per_kgk))

/-- `PackState` from `battery_pack/pack.py`. -/
structure PackState where
  soc : ℝ
  T_k : ℝ
  V_rc1_v : ℝ

/-- The basic pack of `battery_pack/pack.py` (`BatteryPack`): cell and pack
parameters, lumped thermal node, and the owned mutable state. -/
structure BatteryPack where
  cell : CellParams
  pack_params : PackParams
  thermal_params : ThermalParams
  state : PackState

/-- `BatteryPack.__init__` from `battery_pack/pack.py`: no validation is
performed; the initial SOC is clipped to [0,1], the temperature set to
ambient and the RC voltage zeroed. -/
def mkBatteryPack (cp : CellParams) (pp : PackParams) (tp : ThermalParams)
    (initial_soc : ℝ) : BatteryPack :=
  { cell := cp
    pack_params := pp
    thermal_params := tp
    state := { soc := clip initial_soc 0 1, T_k := tp.T_ambient_k, V_rc1_v := 0 } }

/-- `BatteryPack.reset` from `battery_pack/pack.py`. -/
def BatteryPack.reset (b : BatteryPack) (initial_soc : ℝ) : BatteryPack :=
  { b with state := { soc := clip initial_soc 0 1
                      T_k := b.thermal_params.T_ambient_k
                      V_rc1_v := 0 } }

/-- One telemetry row, the dict returned by `BatteryPack.step`
(`time_s` is attached later by `Simulator.run`). -/
structure Telemetry where
  v_pack_v : ℝ
  v_cell_v : ℝ
  i_pack_a : ℝ
  i_cell_a : ℝ
  soc : ℝ
  temp_k : ℝ
  power_w : ℝ
  heat_w : ℝ
  time_s : ℝ

/-- `BatteryPack.step` from `battery_pack/pack.py`: advance the electrical
state via the cell model, compute Joule heat `Ns·I²·(R0+R1)/max(1,Np)`,
advance the lumped thermal node, commit the new state and return the
telemetry row. -/
def BatteryPack.step (b : BatteryPack) (I_pack_a dt_s : ℝ) : BatteryPack × Telemetry :=
  let I_cell_a := I_pack_a / ((max 1 b.pack_params.parallel_cells : ℤ) : ℝ)
  let res := stepVoltageStates b.cell I_cell_a dt_s b.state.V_rc1_v b.state.T_k b.state.soc
  let V_cell_new := res.1
  let V_rc1_new := res.2.1
  let soc_new := res.2.2
  let V_pack_new := (b.pack_params.series_cells : ℝ) * V_cell_new
  let R0 := (temperatureAdjustedResistances b.cell b.state.T_k).1
  let R1 := (temperatureAdjustedResistances b.cell b.state.T_k).2
  let Q_pack_w := (b.pack_params.series_cells : ℝ) * I_pack_a ^ 2 * (R0 + R1)
      / ((max 1 b.pack_params.parallel_cells : ℤ) : ℝ)
  let T_next := lumpedThermalStep b.thermal_params b.state.T_k Q_pack_w dt_s
  ( { b with state := { soc := soc_new, T_k := T_next, V_rc1_v := V_rc1_new } },
    { v_pack_v := V_pack_new
      v_cell_v := V_cell_new
      i_pack_a := I_pack_a
      i_cell_a := I_cell_a
      soc := soc_new
      temp_k := T_next
      power_w := V_pack_new * I_pack_a
      heat_w := Q_pack_w
      time_s := 0 } )

/-- C1: `step_voltage_states` returns exactly the spec's triple: with
temperature-adjusted resistances `R0, R1` and `τ = R1·C1`, the RC voltage is
the exact exponential update when `τ` exceeds the near-zero threshold and
`R1·I` otherwise; the SOC is the coulomb-counting update clipped to [0,1];
and the terminal voltage is `ocv(soc_next) − R0·I − V_rc_next`. -/
theorem stepVoltageStates_spec (p : CellParams) (I_a dt_s V_rc1_v T_k soc_prev : ℝ) :
    stepVoltageStates p I_a dt_s V_rc1_v T_k soc_prev =
      ( ocv p (clip (soc_prev - I_a * dt_s / (p.capacity_ah * 3600)) 0 1)
          - p.R0_ohm * (1 + p.R_temp_coeff_per_k * (T_k - p.T_ref_k)) * I_a
          - (if p.R1_ohm * (1 + p.R_temp_coeff_per_k * (T_k - p.T_ref_k)) * p.C1_f > 1e-9 then
              Real.exp (-dt_s / (p.R1_ohm * (1 + p.R_temp_coeff_per_k * (T_k - p.T_ref_k)) * p.C1_f)) * V_rc1_v
                + (1 - Real.exp (-dt_s / (p.R1_ohm * (1 + p.R_temp_coeff_per_k * (T_k - p.T_ref_k)) * p.C1_f)))
                  * (p.R1_ohm * (1 + p.R_temp_coeff_per_k * (T_k - p.T_ref_k)) * I_a)
            else p.R1_ohm * (1 + p.R_temp_coeff_per_k * (T_k - p.T_ref_k)) * I_a),
        (if p.R1_ohm * (1 + p.R_temp_coeff_per_k * (T_k - p.T_ref_k)) * p.C1_f > 1e-9 then
              Real.exp (-dt_s / (p.R1_ohm * (1 + p.R_temp_coeff_per_k * (T_k - p.T_ref_k)) * p.C1_f)) * V_rc1_v
                + (1 - Real.exp (-dt_s / (p.R1_ohm * (1 + p.R_temp_coeff_per_k * (T_k - p.T_ref_k)) * p.C1_f)))
                  * (p.R1_ohm * (1 + p.R_temp_coeff_per_k * (T_k - p.T_ref_k)) * I_a)
            else p.R1_ohm * (1 + p.R_temp_coeff_per_k * (T_k - p.T_ref_k)) * I_a),
        clip (soc_prev - I_a * dt_s / (p.capacity_ah * 3600)) 0 1 ) := by
  simp only [stepVoltageStates, temperatureAdjustedResistances]

lemma clip_mem_Icc (x lo hi : ℝ) (h : lo ≤ hi) : clip x lo hi ∈ Set.Icc lo hi := by
  constructor
  · exact le_min (le_max_right x lo) h
  · exact min_le_right _ _

/-- C5: the SOC produced by `step_voltage_states` always lies in [0,1]
(the coulomb-counting update is clipped), for any current, time step and
previous state; consequently the SOC committed to `PackState` by every
`BatteryPack.step` call lies in [0,1]. -/
theorem soc_in_unit_interval (p : CellParams) (I_a dt_s V_rc1_v T_k soc_prev : ℝ)
    (b : BatteryPack) (I_pack_a dt : ℝ) :
    (stepVoltageStates p I_a dt_s V_rc1_v T_k soc_prev).2.2 ∈ Set.Icc (0:ℝ) 1 ∧
    ((b.step I_pack_a dt).1).state.soc ∈ Set.Icc (0:ℝ) 1 := by
  constructor
  · simpa [stepVoltageStates] using clip_mem_Icc _ 0 1 (by norm_num)
  · simpa [BatteryPack.step, stepVoltageStates] using clip_mem_Icc _ 0 1 (by norm_num)

/-- C4 (counterexample): constructing the basic pack with an invalid
configuration — negative cell capacity, `Ns = 0`, `Np = 0` — does not fail:
`BatteryPack.__init__` performs no validation, and a subsequent `step` call
produces a telemetry row (with the unchanged SOC 0.5 under zero current). -/
theorem construction_invalid_config_cex :
    (mkBatteryPack { defaultCellParams with capacity_ah := -1.0 }
        { defaultPackParams with series_cells := 0, parallel_cells := 0 }
        defaultThermalParams 0.5).state.soc = 0.5 ∧
    ((mkBatteryPack { defaultCellParams with capacity_ah := -1.0 }
        { defaultPackParams with series_cells := 0, parallel_cells := 0 }
        defaultThermalParams 0.5).step 0 1).2.soc = 0.5 := by
  constructor
  · simp only [mkBatteryPack]
    norm_num [clip]
  · simp only [mkBatteryPack, BatteryPack.step, stepVoltageStates]
    norm_num [clip]

/-- C4 (amended): construction of the basic pack never fails, whatever the
configuration: `BatteryPack.__init__` performs no validation and always
builds a state with the initial SOC clipped to [0,1], temperature set to
ambient, and zero RC voltage. -/
theorem construction_never_fails (cp : CellParams) (pp : PackParams)
    (tp : ThermalParams) (s0 : ℝ) :
    (mkBatteryPack cp pp tp s0).state.soc = clip s0 0 1 ∧
    (mkBatteryPack cp pp tp s0).state.T_k = tp.T_ambient_k ∧
    (mkBatteryPack cp pp tp s0).state.V_rc1_v = 0 := by
  exact ⟨rfl, rfl, rfl⟩

lemma clip_mono_left (lo hi : ℝ) {x y : ℝ} (h : x ≤ y) : clip x lo hi ≤ clip y lo hi :=
  min_le_min (max_le_max h le_rfl) le_rfl

lemma ocv_curve_mono {s1 s2 : ℝ} (h : s1 ≤ s2) :
    3 + 1.2 * s1 + 0.3 * Real.exp (-20 * (1 - s1)) - 0.08 * Real.exp (-20 * s1) ≤
    3 + 1.2 * s2 + 0.3 * Real.exp (-20 * (1 - s2)) - 0.08 * Real.exp (-20 * s2) := by
  have h1 : Real.exp (-20 * (1 - s1)) ≤ Real.exp (-20 * (1 - s2)) :=
    Real.exp_le_exp.mpr (by linarith)
  have h2 : Real.exp (-20 * s2) ≤ Real.exp (-20 * s1) :=
    Real.exp_le_exp.mpr (by linarith)
  linarith

/-- C6: on [0,1] the OCV curve is non-decreasing, and (whenever the
configured floor does not exceed the ceiling) its value lies in
`[ocv_floor_v, ocv_ceiling_v]`. -/
theorem ocv_monotone_bounded (p : CellParams) (hfc : p.ocv_floor_v ≤ p.ocv_ceiling_v)
    (s1 s2 : ℝ) (hs0 : 0 ≤ s1) (hs12 : s1 ≤ s2) (hs1 : s2 ≤ 1) :
    ocv p s1 ≤ ocv p s2 ∧ ocv p s1 ∈ Set.Icc p.ocv_floor_v p.ocv_ceiling_v := by
  constructor
  · simp only [ocv]
    exact clip_mono_left _ _ (ocv_curve_mono (clip_mono_left 0 1 hs12))
  · simp only [ocv]
    exact clip_mem_Icc _ _ _ hfc

/-- Witness for C6 at the default cell parameters with SOC inputs 0.2 ≤ 0.7. -/
theorem ocv_monotone_bounded_witness :
    ocv defaultCellParams 0.2 ≤ ocv defaultCellParams 0.7 ∧
    ocv defaultCellParams 0.2 ∈
      Set.Icc defaultCellParams.ocv_floor_v defaultCellParams.ocv_ceiling_v :=
  ocv_monotone_bounded defaultCellParams (by norm_num [defaultCellParams])
    0.2 0.7 (by norm_num) (by norm_num) (by norm_num)

/-- Aging parameters, from `battery_pack/aging.py` (`AgingParams`). -/
structure AgingParams where
  capacity_fade_per_ah : ℝ
  resistance_growth_per_ah : ℝ
  thermal_sensitivity_beta : ℝ
  T_ref_k : ℝ
  min_capacity_fraction : ℝ
  max_resistance_scale : ℝ

/-- Default aging parameters, from `battery_pack/aging.py`. -/
def defaultAgingParams : AgingParams :=
  { capacity_fade_per_ah := 2e-5
    resistance_growth_per_ah := 3e-5
    thermal_sensitivity_beta := 0.04
    T_ref_k := 298.15
    min_capacity_fraction := 0.7
    max_resistance_scale := 2.5 }

/-- `arrhenius_multiplier` from `battery_pack/aging.py`. -/
def arrheniusMultiplier (T_k T_ref_k beta : ℝ) : ℝ :=
  Real.exp (beta * (T_k - T_ref_k) / 10)

/-- `apply_aging` from `battery_pack/aging.py`: capacity fade and resistance
growth with Arrhenius-like acceleration; the floor/cap clamps are taken
relative to this call's input values. -/
def applyAging (capacity_ah R0_ohm R1_ohm dAh T_k : ℝ) (p : AgingParams) :
    ℝ × ℝ × ℝ :=
  let acc := arrheniusMultiplier T_k p.T_ref_k p.thermal_sensitivity_beta
  let cap_new := capacity_ah * (1 - p.capacity_fade_per_ah * acc * max 0 dAh)
  let R0_new := R0_ohm * (1 + p.resistance_growth_per_ah * acc * max 0 dAh)
  let R1_new := R1_ohm * (1 + p.resistance_growth_per_ah * 0.5 * acc * max 0 dAh)
  (max (p.min_capacity_fraction * capacity_ah) cap_new,
   min (p.max_resistance_scale * R0_ohm) R0_new,
   min (p.max_resistance_scale * R1_ohm) R1_new)

/-- A sequence of `apply_aging` calls, folding the (capacity, R0, R1) triple
through a list of (dAh, T) inputs. -/
def agingSeq (p : AgingParams) : List (ℝ × ℝ) → ℝ × ℝ × ℝ → ℝ × ℝ × ℝ
  | [], s => s
  | (dAh, T_k) :: rest, (c, r0, r1) => agingSeq p rest (applyAging c r0 r1 dAh T_k p)

lemma applyAging_call_bounds (c r0 r1 dAh T_k : ℝ) (p : AgingParams)
    (hc : 0 ≤ c) (hr0 : 0 ≤ r0) (hr1 : 0 ≤ r1)
    (hk : 0 ≤ p.capacity_fade_per_ah) (hkr : 0 ≤ p.resistance_growth_per_ah)
    (hf1 : p.min_capacity_fraction ≤ 1) (hs : 1 ≤ p.max_resistance_scale) :
    p.min_capacity_fraction * c ≤ (applyAging c r0 r1 dAh T_k p).1 ∧
    (applyAging c r0 r1 dAh T_k p).1 ≤ c ∧
    r0 ≤ (applyAging c r0 r1 dAh T_k p).2.1 ∧
    (applyAging c r0 r1 dAh T_k p).2.1 ≤ p.max_resistance_scale * r0 ∧
    r1 ≤ (applyAging c r0 r1 dAh T_k p).2.2 ∧
    (applyAging c r0 r1 dAh T_k p).2.2 ≤ p.max_resistance_scale * r1 := by
  have hacc : 0 < arrheniusMultiplier T_k p.T_ref_k p.thermal_sensitivity_beta :=
    Real.exp_pos _
  have hd : 0 ≤ max 0 dAh := le_max_left 0 dAh
  have hx : 0 ≤ p.capacity_fade_per_ah *
      arrheniusMultiplier T_k p.T_ref_k p.thermal_sensitivity_beta * max 0 dAh := by
    positivity
  have hy : 0 ≤ p.resistance_growth_per_ah *
      arrheniusMultiplier T_k p.T_ref_k p.thermal_sensitivity_beta * max 0 dAh := by
    positivity
  have hy2 : 0 ≤ p.resistance_growth_per_ah * 0.5 *
      arrheniusMultiplier T_k p.T_ref_k p.thermal_sensitivity_beta * max 0 dAh := by
    positivity
  simp only [applyAging]
  refine ⟨le_max_left _ _, ?_, ?_, min_le_left _ _, ?_, min_le_left _ _⟩
  · exact max_le (by nlinarith) (by nlinarith)
  · exact le_min (by nlinarith) (by nlinarith)
  · exact le_min (by nlinarith) (by nlinarith)

/-- C3 (amended): across any sequence of `apply_aging` calls, starting from
nonnegative capacity and resistances, capacity never increases and the
resistances never decrease; but because each call's clamps are relative to
that call's own inputs, the guaranteed floor after `k` calls is only
`min_capacity_fraction^k` times the original capacity (and the resistance
cap `max_resistance_scale^k` times the original resistances), not the
single-call fractions of the original. -/
theorem aging_monotone_clamped (p : AgingParams)
    (hk : 0 ≤ p.capacity_fade_per_ah) (hkr : 0 ≤ p.resistance_growth_per_ah)
    (hf0 : 0 ≤ p.min_capacity_fraction) (hf1 : p.min_capacity_fraction ≤ 1)
    (hs : 1 ≤ p.max_resistance_scale)
    (steps : List (ℝ × ℝ)) (c0 r00 r10 : ℝ)
    (hc : 0 ≤ c0) (hr0 : 0 ≤ r00) (hr1 : 0 ≤ r10) :
    (agingSeq p steps (c0, r00, r10)).1 ≤ c0 ∧
    p.min_capacity_fraction ^ steps.length * c0 ≤ (agingSeq p steps (c0, r00, r10)).1 ∧
    r00 ≤ (agingSeq p steps (c0, r00, r10)).2.1 ∧
    (agingSeq p steps (c0, r00, r10)).2.1 ≤ p.max_resistance_scale ^ steps.length * r00 ∧
    r10 ≤ (agingSeq p steps (c0, r00, r10)).2.2 ∧
    (agingSeq p steps (c0, r00, r10)).2.2 ≤ p.max_resistance_scale ^ steps.length * r10 := by
  induction steps generalizing c0 r00 r10 with
  | nil =>
    simp [agingSeq]
  | cons head tail ih =>
    obtain ⟨dAh, T_k⟩ := head
    obtain ⟨hcl, hcu, hr0l, hr0u, hr1l, hr1u⟩ :=
      applyAging_call_bounds c0 r00 r10 dAh T_k p hc hr0 hr1 hk hkr hf1 hs
    set nxt := applyAging c0 r00 r10 dAh T_k p with hnxt
    have hc1 : 0 ≤ nxt.1 := le_trans (by positivity) hcl
    have hr01 : 0 ≤ nxt.2.1 := le_trans hr0 hr0l
    have hr11 : 0 ≤ nxt.2.2 := le_trans hr1 hr1l
    obtain ⟨ih1, ih2, ih3, ih4, ih5, ih6⟩ := ih nxt.1 nxt.2.1 nxt.2.2 hc1 hr01 hr11
    have hseq : agingSeq p ((dAh, T_k) :: tail) (c0, r00, r10) =
        agingSeq p tail (nxt.1, nxt.2.1, nxt.2.2) := by
      simp [agingSeq, hnxt]
    rw [hseq]
    have hpowf : (0:ℝ) ≤ p.min_capacity_fraction ^ tail.length := by positivity
    have hpows : (0:ℝ) ≤ p.max_resistance_scale ^ tail.length :=
      pow_nonneg (by linarith) _
    refine ⟨le_trans ih1 hcu, ?_, le_trans hr0l ih3, ?_, le_trans hr1l ih5, ?_⟩
    · calc p.min_capacity_fraction ^ ((dAh, T_k) :: tail).length * c0
          = p.min_capacity_fraction ^ tail.length * (p.min_capacity_fraction * c0) := by
            simp [List.length_cons, pow_succ]; ring
        _ ≤ p.min_capacity_fraction ^ tail.length * nxt.1 :=
            mul_le_mul_of_nonneg_left hcl hpowf
        _ ≤ (agingSeq p tail (nxt.1, nxt.2.1, nxt.2.2)).1 := ih2
    · calc (agingSeq p tail (nxt.1, nxt.2.1, nxt.2.2)).2.1
          ≤ p.max_resistance_scale ^ tail.length * nxt.2.1 := ih4
        _ ≤ p.max_resistance_scale ^ tail.length * (p.max_resistance_scale * r00) :=
            mul_le_mul_of_nonneg_left hr0u hpows
        _ = p.max_resistance_scale ^ ((dAh, T_k) :: tail).length * r00 := by
            simp [List.length_cons, pow_succ]; ring
    · calc (agingSeq p tail (nxt.1, nxt.2.1, nxt.2.2)).2.2
          ≤ p.max_resistance_scale ^ tail.length * nxt.2.2 := ih6
        _ ≤ p.max_resistance_scale ^ tail.length * (p.max_resistance_scale * r10) :=
            mul_le_mul_of_nonneg_left hr1u hpows
        _ = p.max_resistance_scale ^ ((dAh, T_k) :: tail).length * r10 := by
            simp [List.length_cons, pow_succ]; ring

/-- Witness for C3's amended theorem: two aging calls on the default cell
values with positive throughputs. -/
theorem aging_monotone_clamped_witness :
    (agingSeq defaultAgingParams [(1, 298.15), (2, 310)] (3, 0.0025, 0.0015)).1 ≤ 3 ∧
    (0.7:ℝ) ^ 2 * 3 ≤ (agingSeq defaultAgingParams [(1, 298.15), (2, 310)] (3, 0.0025, 0.0015)).1 ∧
    (0.0025:ℝ) ≤ (agingSeq defaultAgingParams [(1, 298.15), (2, 310)] (3, 0.0025, 0.0015)).2.1 ∧
    (agingSeq defaultAgingParams [(1, 298.15), (2, 310)] (3, 0.0025, 0.0015)).2.1 ≤ (2.5:ℝ) ^ 2 * 0.0025 ∧
    (0.0015:ℝ) ≤ (agingSeq defaultAgingParams [(1, 298.15), (2, 310)] (3, 0.0025, 0.0015)).2.2 ∧
    (agingSeq defaultAgingParams [(1, 298.15), (2, 310)] (3, 0.0025, 0.0015)).2.2 ≤ (2.5:ℝ) ^ 2 * 0.0015 := by
  have h := aging_monotone_clamped defaultAgingParams
    (by norm_num [defaultAgingParams]) (by norm_num [defaultAgingParams])
    (by norm_num [defaultAgingParams]) (by norm_num [defaultAgingParams])
    (by norm_num [defaultAgingParams])
    [(1, 298.15), (2, 310)] 3 0.0025 0.0015
    (by norm_num) (by norm_num) (by norm_num)
  simpa [defaultAgingParams] using h

/-- C3 (counterexample): two `apply_aging` calls with huge positive
throughput at the reference temperature drive the capacity to
`0.49 × original`, strictly below `min_capacity_fraction × original = 2.1`:
the floor is applied per call to that call's input, not to the original. -/
theorem aging_clamp_not_original_cex :
    (agingSeq defaultAgingParams [(1000000, 298.15), (1000000, 298.15)]
      (3, 0.0025, 0.0015)).1 < 0.7 * 3 := by
  have he : (298.15:ℝ) - 298.15 = 0 := by norm_num
  simp only [agingSeq, applyAging, arrheniusMultiplier, defaultAgingParams, he]
  norm_num [Real.exp_zero, max_def, min_def]

/-- Balancing parameters, from `battery_pack/variation.py` (`BalancingParams`). -/
structure BalancingParams where
  enable : Bool
  bleed_current_a : ℝ
  idle_current_threshold_a : ℝ
  soc_over_delta : ℝ

/-- Default balancing parameters, from `battery_pack/variation.py`. -/
def defaultBalancingParams : BalancingParams :=
  { enable := true
    bleed_current_a := 0.2
    idle_current_threshold_a := 2
    soc_over_delta := 0.01 }

/-- `apply_passive_balancing` from `battery_pack/variation.py`: a no-op when
balancing is disabled or `|I_pack|` exceeds the idle threshold; otherwise
cells whose SOC exceeds the pack mean by `soc_over_delta` are bled by
`bleed_current_a·dt` scaled by that cell's own capacity. -/
def applyPassiveBalancing (soc capacity_ah : List ℝ) (pack_current_a dt_s : ℝ)
    (bp : BalancingParams) : List ℝ :=
  if ¬ bp.enable ∨ |pack_current_a| > bp.idle_current_threshold_a then soc
  else
    let mean_soc := soc.sum / (soc.length : ℝ)
    (List.range soc.length).map fun i =>
      if soc.getD i 0 > mean_soc + bp.soc_over_delta then
        max 0 (soc.getD i 0
          - (bp.bleed_current_a * dt_s) / max 1e-9 (capacity_ah.getD i 0 * 3600))
      else soc.getD i 0

lemma getD_map_range (n : ℕ) (f : ℕ → ℝ) (i : ℕ) (h : i < n) :
    ((List.range n).map f).getD i 0 = f i := by
  rw [List.getD_eq_getElem?_getD, List.getElem?_map, List.getElem?_range h]
  rfl

lemma getD_of_length_le (l : List ℝ) (i : ℕ) (h : l.length ≤ i) :
    l.getD i 0 = 0 := by
  rw [List.getD_eq_getElem?_getD, List.getElem?_eq_none (by simpa using h)]
  rfl

lemma getD_mem_of_lt (l : List ℝ) (i : ℕ) (h : i < l.length) : l.getD i 0 ∈ l := by
  rw [List.getD_eq_getElem?_getD, List.getElem?_eq_getElem h]
  exact List.getElem_mem h

/-- C9 (amended): passive balancing is the identity whenever it is disabled
or `|I_pack|` strictly exceeds the idle threshold (so it can act at
`|I_pack|` exactly equal to the threshold, i.e. at or below it, not only
strictly below); when it acts, every cell at or below the pack-mean SOC is
left unchanged, no cell's SOC ever increases, and a bled cell is lowered by
the bleed charge divided by that cell's own capacity. -/
theorem balancing_frame_effect (soc cap : List ℝ) (I dt : ℝ) (bp : BalancingParams) :
    ((¬ bp.enable ∨ |I| > bp.idle_current_threshold_a) →
        applyPassiveBalancing soc cap I dt bp = soc) ∧
    (applyPassiveBalancing soc cap I dt bp).length = soc.length ∧
    (0 ≤ bp.soc_over_delta →
        ∀ i, soc.getD i 0 ≤ soc.sum / (soc.length : ℝ) →
          (applyPassiveBalancing soc cap I dt bp).getD i 0 = soc.getD i 0) ∧
    ((∀ x ∈ soc, 0 ≤ x) → 0 ≤ bp.bleed_current_a * dt →
        ∀ i, (applyPassiveBalancing soc cap I dt bp).getD i 0 ≤ soc.getD i 0) ∧
    (bp.enable → |I| ≤ bp.idle_current_threshold_a →
        ∀ i, i < soc.length →
          soc.getD i 0 > soc.sum / (soc.length : ℝ) + bp.soc_over_delta →
          (applyPassiveBalancing soc cap I dt bp).getD i 0 =
            max 0 (soc.getD i 0
              - (bp.bleed_current_a * dt) / max 1e-9 (cap.getD i 0 * 3600))) := by
  by_cases happ : ¬ bp.enable ∨ |I| > bp.idle_current_threshold_a
  · have hres : applyPassiveBalancing soc cap I dt bp = soc := by
      simp only [applyPassiveBalancing, if_pos happ]
    refine ⟨fun _ => hres, by rw [hres], fun _ i _ => by rw [hres],
      fun _ _ i => by rw [hres], fun hen hle i _ _ => ?_⟩
    exfalso
    rcases happ with h | h
    · exact h hen
    · exact absurd h (not_lt.mpr hle)
  · have hres : applyPassiveBalancing soc cap I dt bp =
        (List.range soc.length).map fun i =>
          if soc.getD i 0 > soc.sum / (soc.length : ℝ) + bp.soc_over_delta then
            max 0 (soc.getD i 0
              - (bp.bleed_current_a * dt) / max 1e-9 (cap.getD i 0 * 3600))
          else soc.getD i 0 := by
      simp only [applyPassiveBalancing, if_neg happ]
    have hlen : (applyPassiveBalancing soc cap I dt bp).length = soc.length := by
      rw [hres, List.length_map, List.length_range]
    refine ⟨fun h => absurd h happ, hlen, ?_, ?_, ?_⟩
    · intro hdelta i hle
      by_cases hi : i < soc.length
      · rw [hres, getD_map_range _ _ i hi, if_neg (by push_neg; linarith)]
      · rw [getD_of_length_le _ i (hlen ▸ not_lt.mp hi),
          getD_of_length_le _ i (not_lt.mp hi)]
    · intro h0 hbd i
      by_cases hi : i < soc.length
      · rw [hres, getD_map_range _ _ i hi]
        by_cases hcase : soc.getD i 0 > soc.sum / (soc.length : ℝ) + bp.soc_over_delta
        · rw [if_pos hcase]
          have hsoc0 : 0 ≤ soc.getD i 0 := h0 _ (getD_mem_of_lt soc i hi)
          have hdiv : 0 ≤ (bp.bleed_current_a * dt) / max 1e-9 (cap.getD i 0 * 3600) :=
            div_nonneg hbd (le_trans (by norm_num) (le_max_left _ _))
          exact max_le hsoc0 (by linarith)
        · rw [if_neg hcase]
      · rw [getD_of_length_le _ i (hlen ▸ not_lt.mp hi),
          getD_of_length_le _ i (not_lt.mp hi)]
    · intro _ _ i hi hgt
      rw [hres, getD_map_range _ _ i hi, if_pos hgt]

/-- C9 (counterexample): when `|I_pack|` equals the idle threshold exactly —
so it is not *below* it — the code still applies balancing: with default
parameters, SOCs [0.9, 0.5], capacities [3, 3] and pack current 2.0 A,
cell 0 (above the mean 0.7 by more than 0.01) is bled, so the result differs
from the input. -/
theorem balancing_at_threshold_cex :
    ¬ (|(2:ℝ)| < defaultBalancingParams.idle_current_threshold_a) ∧
    applyPassiveBalancing [0.9, 0.5] [3, 3] 2 1 defaultBalancingParams ≠ [0.9, 0.5] := by
  constructor
  · norm_num [defaultBalancingParams]
  · intro h
    have h0 := congrArg (fun l : List ℝ => l.getD 0 0) h
    simp only [applyPassiveBalancing, defaultBalancingParams] at h0
    norm_num [List.range_succ, List.getD_cons_zero, List.getD_cons_succ,
      max_def, abs_of_nonneg] at h0

/-- Witness for C9's amended theorem: a no-op at a 5 A current, and a
bleed of the above-mean cell at zero current, both on concrete inputs. -/
theorem balancing_frame_effect_witness :
    applyPassiveBalancing [0.9, 0.5] [3, 3] 5 1 defaultBalancingParams = [0.9, 0.5] ∧
    (applyPassiveBalancing [0.6, 0.8] [3, 3] 0 1 defaultBalancingParams).getD 1 0 =
      max 0 (0.8 - (0.2 * 1) / max 1e-9 ((3:ℝ) * 3600)) := by
  constructor
  · exact (balancing_frame_effect [0.9, 0.5] [3, 3] 5 1 defaultBalancingParams).1
      (Or.inr (by norm_num [defaultBalancingParams]))
  · have h := (balancing_frame_effect [0.6, 0.8] [3, 3] 0 1
      defaultBalancingParams).2.2.2.2 rfl (by norm_num [defaultBalancingParams])
      1 (by norm_num)
      (by norm_num [List.getD_cons_zero, List.getD_cons_succ, defaultBalancingParams])
    simpa [List.getD_cons_zero, List.getD_cons_succ, defaultBalancingParams] using h

/-- Cooling modes of `battery_pack/thermal_network.py` (the closed set of
recognized strings; unrecognized strings behave like `air`). -/
inductive CoolingMode
  | air
  | fin
  | pcm
  | liquid

/-- `ThermalNetwork._mode_sink_conductance` from
`battery_pack/thermal_network.py`. -/
def modeSinkConductance (mode : CoolingMode) (base : ℝ) : ℝ :=
  match mode with
  | .air => base
  | .fin => 2.5 * base
  | .pcm => 4.0 * base
  | .liquid => 6.0 * base

/-- The `ThermalNetwork` object of `battery_pack/thermal_network.py` after
construction: node count, per-node mass, heat capacity, conductances (the
sink conductance already scaled by the cooling mode), sink temperature and
the per-node temperature vector. -/
structure ThermalNetwork where
  num_nodes : ℕ
  mass_per_node_kg : ℝ
  Cp : ℝ
  cell_to_cell_w_per_k : ℝ
  g_sink : ℝ
  sink_temperature_k : ℝ
  T : List ℝ

/-- `ThermalNetwork.__init__` from `battery_pack/thermal_network.py`. -/
def mkThermalNetwork (num_nodes : ℕ) (mass_kg_total Cp_j_per_kgk
    cell_to_cell_w_per_k cell_to_sink_w_per_k sink_temperature_k : ℝ)
    (mode : CoolingMode) : ThermalNetwork :=
  { num_nodes := num_nodes
    mass_per_node_kg := mass_kg_total / ((max 1 num_nodes : ℕ) : ℝ)
    Cp := Cp_j_per_kgk
    cell_to_cell_w_per_k := cell_to_cell_w_per_k
    g_sink := modeSinkConductance mode cell_to_sink_w_per_k
    sink_temperature_k := sink_temperature_k
    T := List.replicate num_nodes sink_temperature_k }

/-- `ThermalNetwork.step` from `battery_pack/thermal_network.py`: explicit
Euler over the 1-D chain; node `i` receives `heat_w[i]` when `i` is within
the heat vector and zero otherwise, exchanges with its neighbors through
`cell_to_cell_w_per_k` and with the sink through the scaled conductance. -/
def ThermalNetwork.step (net : ThermalNetwork) (heat_w : List ℝ) (dt_s : ℝ) :
    ThermalNetwork :=
  let n := net.num_nodes
  let T := fun i => net.T.getD i 0
  let mC := net.mass_per_node_kg * net.Cp
  { net with
    T := (List.range n).map fun i =>
      let q := heat_w.getD i 0
      let neighbors :=
        (if 0 < i then net.cell_to_cell_w_per_k * (T (i - 1) - T i) else 0) +
        (if i < n - 1 then net.cell_to_cell_w_per_k * (T (i + 1) - T i) else 0)
      let sink_term := net.g_sink * (net.sink_temperature_k - T i)
      T i + dt_s * ((q + neighbors + sink_term) / max 1e-9 mC) }

lemma neighbor_sum_zero (gcc : ℝ) (g : ℕ → ℝ) (n : ℕ) :
    ∑ i ∈ Finset.range n,
      ((if 0 < i then gcc * (g (i - 1) - g i) else 0) +
       (if i < n - 1 then gcc * (g (i + 1) - g i) else 0)) = 0 := by
  cases n with
  | zero => simp
  | succ m =>
    rw [Finset.sum_add_distrib]
    have hA : ∑ i ∈ Finset.range (m + 1), (if 0 < i then gcc * (g (i - 1) - g i) else 0) =
        ∑ i ∈ Finset.range m, gcc * (g i - g (i + 1)) := by
      rw [Finset.sum_range_succ']
      simp
    have hB : ∑ i ∈ Finset.range (m + 1), (if i < m + 1 - 1 then gcc * (g (i + 1) - g i) else 0) =
        ∑ i ∈ Finset.range m, gcc * (g (i + 1) - g i) := by
      rw [Finset.sum_range_succ]
      rw [if_neg (by omega)]
      rw [add_zero]
      exact Finset.sum_congr rfl fun i hi =>
        if_pos (by simpa using Nat.lt_of_lt_of_le (Finset.mem_range.mp hi) (by omega))
    rw [hA, hB, ← Finset.sum_add_distrib]
    have : ∀ i ∈ Finset.range m, gcc * (g i - g (i + 1)) + gcc * (g (i + 1) - g i) = 0 :=
      fun i _ => by ring
    rw [Finset.sum_congr rfl this, Finset.sum_const_zero]

/-- C8: with zero sink conductance and an all-zero heat input, one `step` of
the thermal network conserves the total thermal energy
`Σ_i T_i · mass_per_node · Cp` exactly: the nearest-neighbor conduction
terms cancel pairwise over the chain, for any node count, any `dt` and any
temperature vector. -/
theorem thermal_network_energy_conserved (net : ThermalNetwork) (heat : List ℝ)
    (dt : ℝ) (hsink : net.g_sink = 0) (hheat : ∀ q ∈ heat, q = 0) :
    ∑ i ∈ Finset.range net.num_nodes,
        (net.step heat dt).T.getD i 0 * (net.mass_per_node_kg * net.Cp) =
    ∑ i ∈ Finset.range net.num_nodes,
        net.T.getD i 0 * (net.mass_per_node_kg * net.Cp) := by
  have hq : ∀ i : ℕ, heat.getD i 0 = 0 := by
    intro i
    by_cases hi : i < heat.length
    · exact hheat _ (getD_mem_of_lt heat i hi)
    · exact getD_of_length_le heat i (not_lt.mp hi)
  have hstep : ∀ i ∈ Finset.range net.num_nodes,
      (net.step heat dt).T.getD i 0 * (net.mass_per_node_kg * net.Cp) =
        net.T.getD i 0 * (net.mass_per_node_kg * net.Cp) +
        (dt * (net.mass_per_node_kg * net.Cp) / max 1e-9 (net.mass_per_node_kg * net.Cp)) *
          ((if 0 < i then net.cell_to_cell_w_per_k * (net.T.getD (i - 1) 0 - net.T.getD i 0) else 0) +
           (if i < net.num_nodes - 1 then
              net.cell_to_cell_w_per_k * (net.T.getD (i + 1) 0 - net.T.getD i 0) else 0)) := by
    intro i hi
    rw [ThermalNetwork.step]
    rw [getD_map_range _ _ i (Finset.mem_range.mp hi)]
    rw [hq i, hsink]
    ring
  have hz := neighbor_sum_zero net.cell_to_cell_w_per_k
    (fun j => net.T.getD j 0) net.num_nodes
  simp only at hz
  rw [Finset.sum_congr rfl hstep, Finset.sum_add_distrib, ← Finset.mul_sum, hz,
    mul_zero, add_zero]

/-- Witness for C8: a three-node network with distinct temperatures, zero
sink conductance and zero heat input. -/
theorem thermal_network_energy_conserved_witness :
    ∑ i ∈ Finset.range 3,
      (ThermalNetwork.step
        { num_nodes := 3, mass_per_node_kg := 1, Cp := 2, cell_to_cell_w_per_k := 0.5,
          g_sink := 0, sink_temperature_k := 298.15, T := [300, 310, 320] }
        [0, 0, 0] 1).T.getD i 0 * ((1:ℝ) * 2) =
    ∑ i ∈ Finset.range 3, ([300, 310, 320] : List ℝ).getD i 0 * ((1:ℝ) * 2) := by
  have h := thermal_network_energy_conserved
    { num_nodes := 3, mass_per_node_kg := 1, Cp := 2, cell_to_cell_w_per_k := 0.5,
      g_sink := 0, sink_temperature_k := 298.15, T := [300, 310, 320] }
    [0, 0, 0] 1 rfl (by simp)
  simpa using h

/-- C10: a heat vector shorter than the node count is handled by treating
the missing entries as zero heat: `step` never fails, returns a temperature
vector of full length `num_nodes`, and agrees with the same step on the
zero-padded heat vector. -/
theorem thermal_step_short_heat (net : ThermalNetwork) (heat : List ℝ) (dt : ℝ)
    (hlen : heat.length < net.num_nodes) :
    (net.step heat dt).T.length = net.num_nodes ∧
    net.step heat dt =
      net.step (heat ++ List.replicate (net.num_nodes - heat.length) 0) dt := by
  constructor
  · rw [ThermalNetwork.step]
    simp
  · have hpad : ∀ i : ℕ,
        (heat ++ List.replicate (net.num_nodes - heat.length) 0).getD i 0 = heat.getD i 0 := by
      intro i
      by_cases hi : i < heat.length
      · rw [List.getD_eq_getElem?_getD, List.getD_eq_getElem?_getD,
          List.getElem?_append_left hi]
      · rw [getD_of_length_le heat i (not_lt.mp hi), List.getD_eq_getElem?_getD,
          List.getElem?_append_right (not_lt.mp hi), List.getElem?_replicate]
        split <;> rfl
    rw [ThermalNetwork.step, ThermalNetwork.step]
    congr 1
    exact List.map_congr_left fun i _ => by rw [hpad i]

/-- Witness for C10: a three-node network given a one-entry heat vector. -/
theorem thermal_step_short_heat_witness :
    (ThermalNetwork.step
      { num_nodes := 3, mass_per_node_kg := 1, Cp := 2, cell_to_cell_w_per_k := 0.5,
        g_sink := 0, sink_temperature_k := 298.15, T := [300, 300, 300] }
      [5] 1).T.length = 3 ∧
    ThermalNetwork.step
      { num_nodes := 3, mass_per_node_kg := 1, Cp := 2, cell_to_cell_w_per_k := 0.5,
        g_sink := 0, sink_temperature_k := 298.15, T := [300, 300, 300] }
      [5] 1 =
    ThermalNetwork.step
      { num_nodes := 3, mass_per_node_kg := 1, Cp := 2, cell_to_cell_w_per_k := 0.5,
        g_sink := 0, sink_temperature_k := 298.15, T := [300, 300, 300] }
      ([5] ++ List.replicate (3 - 1) 0) 1 := by
  have h := thermal_step_short_heat
    { num_nodes := 3, mass_per_node_kg := 1, Cp := 2, cell_to_cell_w_per_k := 0.5,
      g_sink := 0, sink_temperature_k := 298.15, T := [300, 300, 300] }
    [5] 1 (by norm_num)
  simpa using h

/-- `PowerLimits` from `battery_pack/limits.py`. -/
structure PowerLimits where
  max_discharge_w : ℝ
  max_charge_w : ℝ

/-- `_voltage_at_current` from `battery_pack/limits.py`: static voltage
estimate at a candidate current, ignoring the dynamic RC voltage. -/
def voltageAtCurrent (b : BatteryPack) (I_a soc : ℝ) : ℝ :=
  let R0 := (temperatureAdjustedResistances b.cell b.state.T_k).1
  let R1 := (temperatureAdjustedResistances b.cell b.state.T_k).2
  let I_cell := I_a / ((max 1 b.pack_params.parallel_cells : ℤ) : ℝ)
  (b.pack_params.series_cells : ℝ) * (ocv b.cell soc - (R0 + R1) * I_cell)

/-- The `can_discharge` predicate inside `compute_power_limits`
(`battery_pack/limits.py`). -/
def canDischarge (b : BatteryPack) (soc I : ℝ) : Prop :=
  ¬ (soc ≤ b.pack_params.min_soc + 1e-6) ∧
  voltageAtCurrent b I soc ≥ (b.pack_params.series_cells : ℝ) * b.cell.V_min - 1e-6

/-- The `can_charge` predicate inside `compute_power_limits`
(`battery_pack/limits.py`). -/
def canCharge (b : BatteryPack) (soc I : ℝ) : Prop :=
  ¬ (soc ≥ b.pack_params.max_soc - 1e-6) ∧
  voltageAtCurrent b (-I) soc ≤ (b.pack_params.series_cells : ℝ) * b.cell.V_max + 1e-6

/-- The bisection loop of `compute_power_limits`: `n` iterations keeping
`lo` when the predicate holds at the midpoint, returning the final `lo`. -/
def bisectLo (can : ℝ → Prop) : ℕ → ℝ → ℝ → ℝ
  | 0, lo, _ => lo
  | Nat.succ k, lo, hi =>
    if can (0.5 * (lo + hi)) then bisectLo can k (0.5 * (lo + hi)) hi
    else bisectLo can k lo (0.5 * (lo + hi))

/-- `compute_power_limits` from `battery_pack/limits.py`: 30 bisection
iterations over `[0, max_current]` for each direction. -/
def computePowerLimits (b : BatteryPack) (soc : ℝ) : PowerLimits :=
  let I_dis := bisectLo (canDischarge b soc) 30 0 b.pack_params.max_current_a
  let I_chg := bisectLo (canCharge b soc) 30 0 b.pack_params.max_current_a
  { max_discharge_w := I_dis * voltageAtCurrent b I_dis soc
    max_charge_w := I_chg * voltageAtCurrent b (-I_chg) soc }

/-- The default pack of the scenario: Ns = 40, Np = 3, max current 120 A. -/
def defaultPack : BatteryPack :=
  mkBatteryPack defaultCellParams defaultPackParams defaultThermalParams 0.8

lemma bisectLo_of_never (can : ℝ → Prop) (h : ∀ x, ¬ can x) :
    ∀ (n : ℕ) (lo hi : ℝ), bisectLo can n lo hi = lo
  | 0, _, _ => rfl
  | Nat.succ k, lo, hi => by
    rw [bisectLo, if_neg (h _)]
    exact bisectLo_of_never can h k lo _

lemma bisectLo_mem (can : ℝ → Prop) :
    ∀ (n : ℕ) (lo hi : ℝ), lo ≤ hi → (∀ x, lo ≤ x → x ≤ hi → can x) →
      lo ≤ bisectLo can n lo hi ∧ bisectLo can n lo hi ≤ hi
  | 0, _, _, hle, _ => ⟨le_rfl, hle⟩
  | Nat.succ k, lo, hi, hle, hall => by
    have hmidlo : lo ≤ 0.5 * (lo + hi) := by linarith
    have hmidhi : 0.5 * (lo + hi) ≤ hi := by linarith
    rw [bisectLo, if_pos (hall _ hmidlo hmidhi)]
    have h2 := bisectLo_mem can k (0.5 * (lo + hi)) hi hmidhi
      (fun x hx1 hx2 => hall x (le_trans hmidlo hx1) hx2)
    exact ⟨le_trans hmidlo h2.1, h2.2⟩

lemma bisectLo_ge_mid (can : ℝ → Prop) (k : ℕ) (lo hi : ℝ) (hle : lo ≤ hi)
    (hall : ∀ x, lo ≤ x → x ≤ hi → can x) :
    0.5 * (lo + hi) ≤ bisectLo can (k + 1) lo hi := by
  have hmidlo : lo ≤ 0.5 * (lo + hi) := by linarith
  have hmidhi : 0.5 * (lo + hi) ≤ hi := by linarith
  rw [bisectLo, if_pos (hall _ hmidlo hmidhi)]
  exact (bisectLo_mem can k _ hi hmidhi
    (fun x hx1 hx2 => hall x (le_trans hmidlo hx1) hx2)).1

lemma ocv_default_half_bounds :
    3.6 ≤ ocv defaultCellParams 0.5 ∧ ocv defaultCellParams 0.5 ≤ 3.9 := by
  have h0 : (0:ℝ) < Real.exp (-10) := Real.exp_pos _
  have h1 : Real.exp (-10) < 1 := by
    rw [← Real.exp_zero]
    exact Real.exp_lt_exp.mpr (by norm_num)
  have hs : clip (0.5:ℝ) 0 1 = 0.5 := by
    rw [clip, max_eq_left (by norm_num), min_eq_left (by norm_num)]
  simp only [ocv, hs, defaultCellParams]
  have hv : (3:ℝ) + 1.2 * 0.5 + 0.3 * Real.exp (-20 * (1 - 0.5))
      - 0.08 * Real.exp (-20 * 0.5) = 3.6 + 0.22 * Real.exp (-10) := by
    norm_num
    ring
  rw [hv, clip, max_eq_left (by nlinarith), min_eq_left (by nlinarith)]
  constructor <;> nlinarith

lemma voltageAtCurrent_default (I : ℝ) :
    voltageAtCurrent defaultPack I 0.5 =
      40 * (ocv defaultCellParams 0.5 - 0.004 * (I / 3)) := by
  have hmax : (max 1 3 : ℤ) = 3 := rfl
  simp only [voltageAtCurrent, defaultPack, mkBatteryPack,
    temperatureAdjustedResistances, defaultPackParams, defaultThermalParams, hmax]
  have hcell : (mkBatteryPack defaultCellParams defaultPackParams
      defaultThermalParams 0.8).cell = defaultCellParams := rfl
  norm_num [defaultCellParams]

/-- C7: at any SOC at or below the pack's `min_soc`, the discharge limit is
exactly 0 W (the `can_discharge` guard rejects every current, so bisection
never moves `lo` off 0); and for the default pack (Ns = 40, Np = 3,
max current 120 A) at SOC 0.5 both returned power limits are strictly
positive magnitudes. -/
theorem power_limits_spec (b : BatteryPack) (soc : ℝ)
    (h : soc ≤ b.pack_params.min_soc) :
    (computePowerLimits b soc).max_discharge_w = 0 ∧
    0 < (computePowerLimits defaultPack 0.5).max_discharge_w ∧
    0 < (computePowerLimits defaultPack 0.5).max_charge_w := by
  have heps : (0:ℝ) < 1e-6 := by norm_num
  have hO := ocv_default_half_bounds
  have hmc : defaultPack.pack_params.max_current_a = 120 := rfl
  have hNs : (defaultPack.pack_params.series_cells : ℝ) = 40 := by
    norm_num [defaultPack, mkBatteryPack, defaultPackParams]
  have hVmin : defaultPack.cell.V_min = 3 := rfl
  have hVmax : defaultPack.cell.V_max = 4.2 := rfl
  have hminsoc : defaultPack.pack_params.min_soc = 0.1 := rfl
  have hmaxsoc : defaultPack.pack_params.max_soc = 0.9 := rfl
  have hall_dis : ∀ x, 0 ≤ x → x ≤ 120 → canDischarge defaultPack 0.5 x := by
    intro x hx0 hx1
    refine ⟨by rw [hminsoc]; norm_num, ?_⟩
    rw [voltageAtCurrent_default, hNs, hVmin]
    have h1 := hO.1
    linarith
  have hall_chg : ∀ x, 0 ≤ x → x ≤ 120 → canCharge defaultPack 0.5 x := by
    intro x hx0 hx1
    refine ⟨by rw [hmaxsoc]; norm_num, ?_⟩
    rw [voltageAtCurrent_default, hNs, hVmax]
    have h2 := hO.2
    linarith
  refine ⟨?_, ?_, ?_⟩
  · have hnever : ∀ x, ¬ canDischarge b soc x := fun x hc => hc.1 (by linarith)
    simp only [computePowerLimits]
    rw [bisectLo_of_never _ hnever, zero_mul]
  · simp only [computePowerLimits, hmc]
    have hb1 := bisectLo_mem (canDischarge defaultPack 0.5) 30 0 120
      (by norm_num) hall_dis
    have hb2 := bisectLo_ge_mid (canDischarge defaultPack 0.5) 29 0 120
      (by norm_num) hall_dis
    norm_num at hb2
    rw [voltageAtCurrent_default]
    have h1 := hO.1
    have hle := hb1.2
    apply mul_pos (by linarith) (by linarith)
  · simp only [computePowerLimits, hmc]
    have hb1 := bisectLo_mem (canCharge defaultPack 0.5) 30 0 120
      (by norm_num) hall_chg
    have hb2 := bisectLo_ge_mid (canCharge defaultPack 0.5) 29 0 120
      (by norm_num) hall_chg
    norm_num at hb2
    rw [voltageAtCurrent_default]
    have h1 := hO.1
    apply mul_pos (by linarith) (by linarith)

/-- Witness for C7: the default pack at SOC 0.05 (below `min_soc` = 0.1)
and at SOC 0.5. -/
theorem power_limits_spec_witness :
    (computePowerLimits defaultPack 0.05).max_discharge_w = 0 ∧
    0 < (computePowerLimits defaultPack 0.5).max_discharge_w ∧
    0 < (computePowerLimits defaultPack 0.5).max_charge_w :=
  power_limits_spec defaultPack 0.05
    (by norm_num [defaultPack, mkBatteryPack, defaultPackParams])

/-- `DriveCycle` from `battery_pack/drive_cycles.py`: parallel arrays of
sample times and currents (positive = discharge). -/
structure DriveCycle where
  time_s : List ℝ
  current_a : List ℝ

/-- The loop body of `Simulator.run` (`battery_pack/simulation.py`):
iterate the zipped (time, current) samples, with `dt = max(1e-9, t − prev_t)`,
stepping the pack and tagging each telemetry row with its absolute time. -/
def runAux (b : BatteryPack) (prev_t : ℝ) : List (ℝ × ℝ) → BatteryPack × List Telemetry
  | [] => (b, [])
  | (t, I) :: rest =>
    let dt := max 1e-9 (t - prev_t)
    let st := b.step I dt
    let tail := runAux st.1 t rest
    (tail.1, { st.2 with time_s := t } :: tail.2)

/-- `Simulator.run` from `battery_pack/simulation.py`: `prev_t` starts at the
cycle's first timestamp, so the first sample gets the floored dt `1e-9`. -/
def simRun (b : BatteryPack) (cycle : DriveCycle) : BatteryPack × List Telemetry :=
  runAux b (cycle.time_s.getD 0 0) (cycle.time_s.zip cycle.current_a)

/-- `np.trapz(y, x)`: `Σ 0.5·(y_i + y_{i+1})·(x_{i+1} − x_i)`; zero on
fewer than two samples. -/
def trapz : List ℝ → List ℝ → ℝ
  | y1 :: y2 :: ys, x1 :: x2 :: xs => 0.5 * (y1 + y2) * (x2 - x1) + trapz (y2 :: ys) (x2 :: xs)
  | _, _ => 0

/-- The all-zero telemetry row (used only as the `getLastD` default, where
the Python code would index `iloc[-1]`). -/
def defaultTelemetry : Telemetry :=
  { v_pack_v := 0, v_cell_v := 0, i_pack_a := 0, i_cell_a := 0, soc := 0,
    temp_k := 0, power_w := 0, heat_w := 0, time_s := 0 }

/-- The first index at which a row's SOC is at most `thr`:
`np.argmax(df_chg["soc"] <= initial_soc + 1e-6)` guarded by `mask.any()`
in `round_trip_efficiency`. -/
def findMaskIdx (thr : ℝ) : List Telemetry → Option ℕ
  | [] => none
  | r :: rest => if r.soc ≤ thr then some 0 else (findMaskIdx thr rest).map Nat.succ

/-- `SimulationResult` from `battery_pack/simulation.py` (the concatenated
discharge/charge telemetry kept as two phase-tagged lists). -/
structure SimulationResult where
  discharge_rows : List Telemetry
  charge_rows : List Telemetry
  RTE_percent : ℝ
  energy_out_wh : ℝ
  energy_in_wh : ℝ

/-- `Simulator.round_trip_efficiency` from `battery_pack/simulation.py`:
discharge the cycle from `initial_soc`; integrate positive power (Wh);
reset to the ending SOC and run the negated profile; truncate the charge
telemetry at the first row whose SOC is `≤ initial_soc + 1e-6` (when one
exists); integrate the magnitude of negative power; RTE is
`100·out/in` when `energy_in > 1e-9` and `0` otherwise. -/
def roundTripEfficiency (b0 : BatteryPack) (cycle : DriveCycle)
    (initial_soc : ℝ) : SimulationResult :=
  let dis := simRun (b0.reset initial_soc) cycle
  let df_dis := dis.2
  let energy_out_wh :=
    trapz (df_dis.map fun r => max r.power_w 0) (df_dis.map fun r => r.time_s) / 3600
  let b2 := dis.1.reset (df_dis.getLastD defaultTelemetry).soc
  let neg_cycle : DriveCycle :=
    { time_s := cycle.time_s, current_a := cycle.current_a.map fun I => -I }
  let chg := simRun b2 neg_cycle
  let df_chg :=
    match findMaskIdx (initial_soc + 1e-6) chg.2 with
    | some idx => chg.2.take (idx + 1)
    | none => chg.2
  let energy_in_wh :=
    trapz (df_chg.map fun r => max (-r.power_w) 0) (df_chg.map fun r => r.time_s) / 3600
  let RTE := if energy_in_wh > 1e-9 then 100 * (energy_out_wh / energy_in_wh) else 0
  { discharge_rows := df_dis
    charge_rows := df_chg
    RTE_percent := RTE
    energy_out_wh := energy_out_wh
    energy_in_wh := energy_in_wh }

/-- The concrete drive cycle of the round-trip counterexample: two samples,
600 s apart, at a constant 3 A discharge. -/
def cexCycle : DriveCycle := { time_s := [0, 600], current_a := [3, 3] }

lemma trapz_single (y x : ℝ) : trapz [y] [x] = 0 := rfl

lemma ocv_default_ge_3 (s : ℝ) : 3 ≤ ocv defaultCellParams s := by
  simp only [ocv]
  exact (clip_mem_Icc _ _ _ (by norm_num [defaultCellParams])).1

/-- C2: the round-trip protocol run on the default pack with the concrete
two-sample 3 A cycle from `initial_soc = 0.9` returns RTE = 0, not a value
in (0, 100], even though positive energy was discharged: the charge-phase
mask `soc ≤ initial_soc + 1e-6` is true at the very first charge sample
(charging starts *below* `initial_soc`), so the charge telemetry is
truncated to a single row (whose SOC, `0.9 − 1/18 < 0.85`, is nowhere near
`initial_soc`), the trapezoidal energy input over one sample is 0 Wh, and
the RTE guard returns 0. -/
theorem roundTripEfficiency_truncation_bug :
    (roundTripEfficiency defaultPack cexCycle 0.9).RTE_percent = 0 ∧
    (roundTripEfficiency defaultPack cexCycle 0.9).energy_in_wh = 0 ∧
    (roundTripEfficiency defaultPack cexCycle 0.9).charge_rows.length = 1 ∧
    ((roundTripEfficiency defaultPack cexCycle 0.9).charge_rows.getLastD
      defaultTelemetry).soc < 0.85 ∧
    0 < (roundTripEfficiency defaultPack cexCycle 0.9).energy_out_wh := by
  have hmain : (roundTripEfficiency defaultPack cexCycle 0.9).RTE_percent = 0 ∧
      (roundTripEfficiency defaultPack cexCycle 0.9).energy_in_wh = 0 ∧
      (roundTripEfficiency defaultPack cexCycle 0.9).charge_rows.length = 1 ∧
      ((roundTripEfficiency defaultPack cexCycle 0.9).charge_rows.getLastD
        defaultTelemetry).soc < 0.85 := by
    set_option maxHeartbeats 1600000 in
    simp only [roundTripEfficiency, simRun, cexCycle, runAux, BatteryPack.step,
      BatteryPack.reset, stepVoltageStates, lumpedThermalStep,
      temperatureAdjustedResistances, defaultPack, mkBatteryPack, defaultCellParams,
      defaultPackParams, defaultThermalParams, findMaskIdx,
      List.zip_cons_cons, List.zip_nil_right, List.getD_cons_zero, List.getD_cons_succ,
      List.map_cons, List.map_nil]
    set_option maxHeartbeats 1600000 in
    norm_num [clip, max_def, min_def, trapz_single]
  have hout : 0 < (roundTripEfficiency defaultPack cexCycle 0.9).energy_out_wh := by
    set_option maxHeartbeats 1600000 in
    simp only [roundTripEfficiency, simRun, cexCycle, runAux, BatteryPack.step,
      BatteryPack.reset, stepVoltageStates, lumpedThermalStep,
      temperatureAdjustedResistances, defaultPack, mkBatteryPack, defaultCellParams,
      defaultPackParams, defaultThermalParams, findMaskIdx, trapz_single, trapz,
      List.zip_cons_cons, List.zip_nil_right, List.getD_cons_zero, List.getD_cons_succ,
      List.map_cons, List.map_nil]
    set_option maxHeartbeats 1600000 in
    norm_num [clip]
    have hrec : defaultCellParams =
        { capacity_ah := 3, R0_ohm := 1 / 400, R1_ohm := 3 / 2000, C1_f := 2000,
          V_min := 3, V_max := 21 / 5, T_ref_k := 5963 / 20,
          R_temp_coeff_per_k := 3 / 1000, ocv_floor_v := 3, ocv_ceiling_v := 21 / 5 } := by
      norm_num [defaultCellParams]
    rw [← hrec]
    refine lt_add_of_lt_of_nonneg ?_ (le_max_right _ _)
    refine lt_max_iff.mpr (Or.inl ?_)
    have h1 := ocv_default_ge_3 (9719999999999 / 10800000000000)
    have h2 : 0 < Real.exp (-(1 / 3000000000)) := Real.exp_pos _
    have h3 : Real.exp (-(1 / 3000000000)) ≤ 1 := by
      rw [← Real.exp_zero]
      exact Real.exp_le_exp.mpr (by norm_num)
    nlinarith [h1, h2, h3]
  exact ⟨hmain.1, hmain.2.1, hmain.2.2.1, hmain.2.2.2, hout⟩
